import Mathlib

/-!
Verification of the elvish evaluator runtime against its specification.

The development shallowly embeds the relevant parts of the Go sources:

* `eval/builtin_special.go` — the special forms (`while`, `try`, `and`, `or`,
  `use`, module loading, `del`);
* `eval/pwd.go` — the working-directory variable;
* the port type (`Port.Fork`, `Port.Close`, `ClosePorts`);
* the older-generation evaluator context (`evalCtx.copy`, `ResolveVar`,
  `HasFailure`).

Effectful Go code is modelled by explicit state passing; Go maps (which are
reference types) are modelled by a heap of references where aliasing matters;
fallible code returns `Except`/`Option`.
-/

namespace Elvish

/-- Association-list lookup, modelling Go map indexing `m[k]` where a missing
key yields the zero value (`nil`, modelled as `none`). -/
def lookupL {α : Type} : List (String × α) → String → Option α
  | [], _ => none
  | (k, v) :: rest, key => if k = key then some v else lookupL rest key

/-- Runtime errors thrown by the evaluator (the causes that matter to the
special forms under verification). -/
inductive Err where
  | user (msg : String)
  | errNoLibDir
  | cannotLoad (name path : String)
  | readFail (path : String)
  | parseFail (name : String)
  | compileFail (name : String)
  | relativeUseNotFromMod
  | relativeUseGoesOutsideLib
  | pathMustBeString
  deriving DecidableEq

/-! ## Ports (new generation: `Port`, `Port.Fork`, `Port.Close`, `ClosePorts`) -/

/-- `Port` conveys a data stream: a byte band (`File`) and a channel band
(`Chan`), plus the two ownership flags. Files and channels are identified by
opaque ids. -/
structure Port where
  File : Nat
  Chan : Nat
  CloseFile : Bool
  CloseChan : Bool
  deriving DecidableEq

/-- `Fork` returns a copy of a `Port` with the `Close` flags unset. -/
def Port.Fork (p : Port) : Port := ⟨p.File, p.Chan, false, false⟩

/-- An observable resource release performed by closing ports. -/
inductive CloseEffect where
  | closeFile (id : Nat)
  | closeChan (id : Nat)
  deriving DecidableEq

/-- `Close` closes a `Port`: a no-op on a nil pointer, otherwise it closes the
file if `CloseFile` is set and closes the channel if `CloseChan` is set. The
effects are returned in the order the Go code performs them. -/
def PortClose : Option Port → List CloseEffect
  | none => []
  | some p =>
      (if p.CloseFile then [CloseEffect.closeFile p.File] else []) ++
      (if p.CloseChan then [CloseEffect.closeChan p.Chan] else [])

/-- `ClosePorts` closes a list of ports, left to right. -/
def ClosePorts : List (Option Port) → List CloseEffect
  | [] => []
  | p :: ps => PortClose p ++ ClosePorts ps

/-! ## The while special form (`compileWhile`, runtime part) -/

/-- The cause carried by a runtime `Exception` in the new-generation
evaluator: a user error, or one of the flow-control sentinels. -/
inductive Cause where
  | err (msg : String)
  | Return
  | Break
  | Continue
  deriving DecidableEq

/-- Result of running a `while` form. `condExhausted` means the supplied
oracle of condition/body outcomes ran out (the real loop would keep going). -/
inductive WhileRes where
  | finished
  | thrown (c : Cause)
  | condExhausted
  deriving DecidableEq

/-- The runtime loop of `compileWhile`, embedded over oracles: `conds` lists
the truth value of each successive condition evaluation, `bodies` the outcome
of each successive body call (`none` = normal return, `some c` = an exception
with cause `c`). Returns the loop result paired with the number of body calls
performed. Faithful to the Go code: a `Continue` cause falls through to the
next iteration, and a `Break` cause executes the Go statement `continue`,
which also jumps back to re-evaluate the condition; any other cause is
re-thrown. -/
def whileGo : List Bool → List (Option Cause) → WhileRes × Nat
  | [], _ => (WhileRes.condExhausted, 0)
  | c :: cs, bs =>
    if c = false then (WhileRes.finished, 0)
    else
      match bs with
      | [] => (WhileRes.condExhausted, 0)
      | b :: bs' =>
        match b with
        | none =>
            let r := whileGo cs bs'
            (r.1, r.2 + 1)
        | some Cause.Continue =>
            let r := whileGo cs bs'
            (r.1, r.2 + 1)
        | some Cause.Break =>
            let r := whileGo cs bs'
            (r.1, r.2 + 1)
        | some c' => (WhileRes.thrown c', 1)

/-- Modelled from the spec: the intended `while` loop, in which a `Continue`
exception restarts the loop, a `Break` exception exits the loop cleanly
without re-executing the body, and other exceptions propagate. Identical to
`whileGo` except in the `Break` branch. -/
def whileSpecLoop : List Bool → List (Option Cause) → WhileRes × Nat
  | [], _ => (WhileRes.condExhausted, 0)
  | c :: cs, bs =>
    if c = false then (WhileRes.finished, 0)
    else
      match bs with
      | [] => (WhileRes.condExhausted, 0)
      | b :: bs' =>
        match b with
        | none =>
            let r := whileSpecLoop cs bs'
            (r.1, r.2 + 1)
        | some Cause.Continue =>
            let r := whileSpecLoop cs bs'
            (r.1, r.2 + 1)
        | some Cause.Break => (WhileRes.finished, 1)
        | some c' => (WhileRes.thrown c', 1)

/-! ## Values and the and/or special forms (`compileAndOr`) -/

/-- A value of the new-generation evaluator: booleans, strings, numbers and
lists (the variants truthiness distinguishes). -/
inductive Value where
  | bool (b : Bool)
  | str (s : String)
  | num (n : Int)
  | listV (xs : List Value)

/-- Modelled from the spec: truthiness (`types.ToBool`) — `Bool(false)`, the
empty string, numerical zero and the empty container are false-ish, every
other value is true-ish. -/
def ToBool : Value → Bool
  | Value.bool b => b
  | Value.str s => !(s == "")
  | Value.num n => !(n == 0)
  | Value.listV xs => !xs.isEmpty

/-- The inner loop of `compileAndOr` over the values produced by one argument
compound: the first value whose truthiness equals `stopAt` is sent to the
output (`Sum.inl`); otherwise the running last value is updated
(`Sum.inr`). -/
def scanVals (stopAt : Bool) : Value → List Value → Sum Value Value
  | last, [] => Sum.inr last
  | _, v :: vs => if ToBool v = stopAt then Sum.inl v else scanVals stopAt v vs

/-- The outer loop of `compileAndOr` over the argument operations. Each
argument either throws (`Except.error`, e.g. a `fail` call) or produces a
list of values. Arguments after a stopping value are never examined. -/
def andOrLoop (stopAt : Bool) : Value → List (Except Err (List Value)) → Except Err Value
  | last, [] => Except.ok last
  | last, op :: rest =>
    match op with
    | Except.error e => Except.error e
    | Except.ok values =>
      match scanVals stopAt last values with
      | Sum.inl v => Except.ok v
      | Sum.inr last' => andOrLoop stopAt last' rest

/-- `compileAndOr` (runtime part): evaluate the arguments with initial last
value `Bool(init)`, stopping at the first value whose truthiness is
`stopAt`; the stopping value, or else the last value produced, goes to the
output value channel (modelled as the `Except.ok` result). -/
def compileAndOr (init stopAt : Bool) (args : List (Except Err (List Value))) :
    Except Err Value :=
  andOrLoop stopAt (Value.bool init) args

/-- The `and` special form: `compileAndOr` with `init = true`,
`stopAt = false`. -/
def compileAnd (args : List (Except Err (List Value))) : Except Err Value :=
  compileAndOr true false args

/-- The `or` special form: `compileAndOr` with `init = false`,
`stopAt = true`. -/
def compileOr (args : List (Except Err (List Value))) : Except Err Value :=
  compileAndOr false true args

/-- The first value of a list whose truthiness equals `stopAt` (specification
side). -/
def firstStop (stopAt : Bool) : List Value → Option Value
  | [] => none
  | v :: vs => if ToBool v = stopAt then some v else firstStop stopAt vs

/-- The last value of a list, or the default when the list is empty
(specification side). -/
def lastOr : Value → List Value → Value
  | d, [] => d
  | _, v :: vs => lastOr v vs

/-! ## The try special form (`compileTry`, runtime part) -/

/-- The shape and the clause outcomes of one execution of a `try` form:
which clauses are present, and the outcome of each call the runtime makes
(`none` = normal completion, `some e` = an exception). `setErr` is the
result of assigning the caught exception to the `except` variable. -/
structure TryCfg where
  hasExcept : Bool
  hasExceptVar : Bool
  hasElse : Bool
  hasFinally : Bool
  bodyErr : Option Err
  setErr : Option Err
  exceptErr : Option Err
  elseErr : Option Err
  finallyErr : Option Err

/-- Observable outcome of a `try` form: which optional clauses ran, and the
exception it throws (if any). -/
structure TryOut where
  exceptRan : Bool
  elseRan : Bool
  finallyRan : Bool
  thrown : Option Err
  deriving DecidableEq

/-- The runtime of `compileTry`, faithful to the Go control flow: the body is
called and its error captured; on error, an `except` clause (after a
possibly-failing assignment to the exception variable, whose failure is
thrown immediately via `maybeThrow`, bypassing `finally`) replaces the error
with its own outcome; on success an `else` clause does; then `finally` is
called unconditionally, and any remaining error is re-thrown — except that an
error from `finally` itself propagates instead. -/
def runTry (c : TryCfg) : TryOut :=
  let step : Except Err (Bool × Bool × Option Err) :=
    match c.bodyErr with
    | some e =>
      if c.hasExcept then
        if c.hasExceptVar then
          match c.setErr with
          | some se => Except.error se
          | none => Except.ok (true, false, c.exceptErr)
        else Except.ok (true, false, c.exceptErr)
      else Except.ok (false, false, some e)
    | none =>
      if c.hasElse then Except.ok (false, true, c.elseErr)
      else Except.ok (false, false, none)
  match step with
  | Except.error se => ⟨false, false, false, some se⟩
  | Except.ok (exc, els, pending) =>
    if c.hasFinally then
      match c.finallyErr with
      | some fe => ⟨exc, els, true, some fe⟩
      | none => ⟨exc, els, true, pending⟩
    else ⟨exc, els, false, pending⟩

/-- The exception remaining after the body/except/else dispatch: the original
one when no `except` caught it, or the one thrown by the except/else clause
(specification side). -/
def pendingErr (c : TryCfg) : Option Err :=
  match c.bodyErr with
  | some e => if c.hasExcept then c.exceptErr else some e
  | none => if c.hasElse then c.elseErr else none

/-! ## The pwd variable (`eval/pwd.go`) -/

/-- The relevant state of the operating system and the directory-history
store: the current working directory, and the recorded directory changes. -/
structure World where
  cwd : String
  dirHistory : List String
  deriving DecidableEq

/-- Modelled from the spec: `Chdir` changes the process working directory to
`path` and records with the store that the process changed into that
directory. -/
def Chdir (path : String) (w : World) : Option Err × World :=
  (none, ⟨path, w.dirHistory ++ [path]⟩)

/-- `PwdVariable.Get`: reads the current working directory from the OS and
returns it as a string value. -/
def PwdVariableGet (w : World) : Value := Value.str w.cwd

/-- `PwdVariable.Set`: a non-string value is rejected with
`ErrPathMustBeString`; a string changes the working directory via `Chdir`. -/
def PwdVariableSet (v : Value) (w : World) : Option Err × World :=
  match v with
  | Value.str path => Chdir path w
  | _ => (some Err.pathMustBeString, w)

/-- Whether a value is a string (the type assertion in `PwdVariable.Set`). -/
def isStr : Value → Bool
  | Value.str _ => true
  | _ => false

/-! ## Lexical path processing (`filepath.Clean`, `filepath.Dir`) -/

/-- Go's `strings.HasPrefix`, computed structurally over the characters. -/
def hasPfx (s pre : String) : Bool := pre.data.isPrefixOf s.data

/-- Split a character list at a separator character (the groups between the
separators, in order; an empty list yields one empty group). -/
def splitOnChar (c : Char) : List Char → List (List Char)
  | [] => [[]]
  | x :: xs =>
    match splitOnChar c xs with
    | [] => if x = c then [[], []] else [[x]]
    | g :: gs => if x = c then [] :: g :: gs else (x :: g) :: gs

/-- Go's `strings.Split` on the path separator. -/
def splitSlash (s : String) : List String :=
  (splitOnChar (Char.ofNat 47) s.data).map (fun cs => String.mk cs)

/-- Join path elements with slashes (inverse of `splitSlash` on nonempty
element lists). -/
def joinSlash : List String → String
  | [] => ""
  | [x] => x
  | x :: xs => x ++ "/" ++ joinSlash xs

/-- The element-processing pass of Go's `filepath.Clean`: skip empty and `.`
elements; for `..` pop a poppable element, or drop it when rooted, or emit a
leading `..` when not rooted; keep everything else. The first argument is the
output stack (in reverse). -/
def cleanCore (rooted : Bool) : List String → List String → List String
  | stack, [] => stack.reverse
  | stack, e :: rest =>
    if e = "" ∨ e = "." then cleanCore rooted stack rest
    else if e = ".." then
      match stack with
      | [] => if rooted then cleanCore rooted [] rest
              else cleanCore rooted [".."] rest
      | top :: stack' =>
        if top = ".." then cleanCore rooted (".." :: top :: stack') rest
        else cleanCore rooted stack' rest
    else cleanCore rooted (e :: stack) rest

/-- Go's `filepath.Clean` for slash-separated paths: the shortest lexically
equivalent path, `.` for an empty result, with a leading `/` preserved. -/
def cleanPath (path : String) : String :=
  if path = "" then "."
  else
    let rooted := hasPfx path "/"
    let s := joinSlash (cleanCore rooted [] (splitSlash path))
    if rooted then "/" ++ s
    else if s = "" then "." else s

/-- Go's `filepath.Dir`: everything up to and including the final slash,
cleaned; `.` when the path contains no slash. -/
def dirPath (path : String) : String :=
  let parts := splitSlash path
  if parts.length ≤ 1 then cleanPath ""
  else cleanPath (joinSlash parts.dropLast ++ "/")

/-! ## Module loading (`use`, `loadModule`) -/

/-- A module namespace, identified opaquely (what matters to the cache is
its identity). -/
abbrev Ns := Nat

/-- The Evaler's module cache: resolved path to namespace. -/
abbrev Cache := List (String × Ns)

/-- The environment `loadModule` runs against: the library directory, the
file system (existence and UTF-8 reads), the bundled-module table, and the
outcome oracles for parsing, compiling and evaluating a module body. -/
structure ModEnv where
  libDir : String
  fileExists : String → Bool
  readRes : String → Except Err String
  bundled : List (String × String)
  parseRes : String → String → Option Err
  compileRes : String → String → Option Err
  evalBody : String → Option Err

/-- Observable outcome of `loadModule`: the returned namespace or thrown
error, the module cache afterwards, and — when the module body was executed —
the cache state it was executed under (`none` when the body never ran). -/
structure LoadOut where
  res : Except Err Ns
  cache : Cache
  bodyExecutedWith : Option Cache

/-- The source-resolution step of `loadModule`: open `<libDir>/<name>.elv`
when it exists, fall back to the bundled-module table, else the
cannot-load error. -/
def loadSrc (env : ModEnv) (name : String) : Except Err String :=
  if env.fileExists (cleanPath (env.libDir ++ "/" ++ name ++ ".elv")) = false then
    match lookupL env.bundled name with
    | some code => Except.ok code
    | none =>
        Except.error
          (Err.cannotLoad name (cleanPath (env.libDir ++ "/" ++ name ++ ".elv")))
  else env.readRes (cleanPath (env.libDir ++ "/" ++ name ++ ".elv"))

/-- `loadModule`: return the cached namespace when present; otherwise resolve
the source, parse and compile it, insert the fresh namespace `modGlobal` into
the cache, evaluate the body, and on a body error delete the cache entry
before re-throwing. -/
def loadModule (env : ModEnv) (cache : Cache) (modGlobal : Ns) (name : String) :
    LoadOut :=
  match lookupL cache name with
  | some cached => ⟨Except.ok cached, cache, none⟩
  | none =>
    if env.libDir = "" then ⟨Except.error Err.errNoLibDir, cache, none⟩
    else
      match loadSrc env name with
      | Except.error e => ⟨Except.error e, cache, none⟩
      | Except.ok code =>
        match env.parseRes name code with
        | some e => ⟨Except.error e, cache, none⟩
        | none =>
          match env.compileRes name code with
          | some e => ⟨Except.error e, cache, none⟩
          | none =>
            match env.evalBody name with
            | some e =>
                ⟨Except.error e,
                  ((name, modGlobal) :: cache).filter (fun p => p.1 != name),
                  some ((name, modGlobal) :: cache)⟩
            | none =>
                ⟨Except.ok modGlobal, (name, modGlobal) :: cache,
                  some ((name, modGlobal) :: cache)⟩

/-- The kind of a source being evaluated: top-level, string-eval, or a
module file. -/
inductive SrcKind where
  | SrcTop
  | SrcStringEval
  | SrcModule
  deriving DecidableEq

/-- Source metadata of the executing frame: its kind and name (for a module,
the resolved module path). -/
structure SrcMeta where
  typ : SrcKind
  name : String

/-- The path-resolution step of the `use` runtime: a relative `modpath`
(prefixed `./` or `../`) is legal only from a module source and resolves
relative to the importing module's directory; afterwards a cleaned path that
still begins with `../` is rejected. -/
def useResolve (srcMeta : SrcMeta) (modpath : String) : Except Err String :=
  match
    (if hasPfx modpath "./" || hasPfx modpath "../" then
      if srcMeta.typ ≠ SrcKind.SrcModule then Except.error Err.relativeUseNotFromMod
      else Except.ok (cleanPath (dirPath srcMeta.name ++ "/" ++ modpath))
    else Except.ok (cleanPath modpath)) with
  | Except.error e => Except.error e
  | Except.ok resolvedPath =>
    if hasPfx resolvedPath "../" then Except.error Err.relativeUseGoesOutsideLib
    else Except.ok resolvedPath

/-- Observable outcome of the `use` runtime: the result, the module cache
afterwards, and whether `loadModule` was invoked at all. -/
structure UseOut where
  res : Except Err Ns
  cache : Cache
  loadAttempted : Bool

/-- The `use` runtime: resolve the path, then load the module (the binding of
the result into the local scope is outside the properties verified here). -/
def useRun (env : ModEnv) (cache : Cache) (modGlobal : Ns) (srcMeta : SrcMeta)
    (modpath : String) : UseOut :=
  match useResolve srcMeta modpath with
  | Except.error e => ⟨Except.error e, cache, false⟩
  | Except.ok resolvedPath =>
    ⟨(loadModule env cache modGlobal resolvedPath).res,
      (loadModule env cache modGlobal resolvedPath).cache, true⟩

end Elvish

namespace ElvishOld

/-!
## Older-generation evaluator (`evalCtx`, `copy`, `ResolveVar`, `HasFailure`)

Go maps are reference types: `evalCtx.copy` copies the struct fields
shallowly, so the `local` and `up` namespaces of the copy alias those of the
original. The model therefore stores namespaces in a heap indexed by
references, and an `evalCtx` holds references.
-/

/-- A variable (interface value). `ptr` stands for an in-memory variable
identified by an opaque id; `env` is an environment-backed variable as
produced by `newEnvVariable`. -/
inductive Var where
  | ptr (n : Nat)
  | env (name : String)
  deriving DecidableEq

/-- `ns` is a namespace: a mapping from name to `Var`. -/
abbrev ns := List (String × Var)

/-- The older-generation port: file, channel, and the two close flags, in the
field order of the Go struct literal `&port\x7bp.f, p.ch, false, false\x7d`. -/
structure port where
  f : Nat
  ch : Nat
  closeF : Bool
  closeCh : Bool
  deriving DecidableEq

/-- The heap of namespaces: each Go map value is a reference (a `Nat`) into
this heap. -/
abbrev Heap := Nat → ns

/-- The shared `Evaler`. `global` is a namespace reference; `mod` maps module
names to module namespaces. -/
structure Evaler where
  global : Nat
  mod : List (String × ns)
  searchPaths : List String

/-- `evalCtx` maintains an `Evaler` along with its runtime context. The
`local` and `up` namespaces are heap references, reflecting Go map
reference semantics. -/
structure evalCtx where
  ev : Evaler
  name : String
  text : String
  context : String
  localRef : Nat
  upRef : Nat
  ports : List port

/-- `copy` returns a copy of `ec`: the ports are copied deeply with the
close flags reset, the context is replaced, and the other fields — including
the `local` and `up` namespace references — are copied shallowly. -/
def evalCtx.copy (ec : evalCtx) (newContext : String) : evalCtx :=
  ⟨ec.ev, ec.name, ec.text, newContext, ec.localRef, ec.upRef,
    ec.ports.map (fun p => ⟨p.f, p.ch, false, false⟩)⟩

/-- Go map assignment `m[k] = v`: replace the binding if present, else add. -/
def nsSet (m : ns) (k : String) (v : Var) : ns :=
  match m with
  | [] => [(k, v)]
  | (k', v') :: rest => if k' = k then (k, v) :: rest else (k', v') :: nsSet rest k v

/-- Go map deletion `delete(m, k)`. -/
def nsDel (m : ns) (k : String) : ns :=
  match m with
  | [] => []
  | (k', v') :: rest => if k' = k then nsDel rest k else (k', v') :: nsDel rest k

/-- Overwrite the namespace held at reference `r`. -/
def heapUpdate (h : Heap) (r : Nat) (m : ns) : Heap :=
  fun r' => if r' = r then m else h r'

/-- The local namespace of a context, read through the heap. -/
def localOf (h : Heap) (ec : evalCtx) : ns := h ec.localRef

/-- Adding a variable to a context's local namespace (the effect of
assignment forms): mutates the heap cell the context's `local` refers to. -/
def addLocal (h : Heap) (ec : evalCtx) (k : String) (v : Var) : Heap :=
  heapUpdate h ec.localRef (nsSet (h ec.localRef) k v)

/-- Deleting a variable from a context's local namespace (the effect of
`newDelLocalVariableOp`, `delete(f.local, name)`). -/
def delLocal (h : Heap) (ec : evalCtx) (k : String) : Heap :=
  heapUpdate h ec.localRef (nsDel (h ec.localRef) k)

/-- `newEnvVariable` makes an environment-backed variable. -/
def newEnvVariable (name : String) : Var := Var.env name

/-- `ResolveVar` resolves a variable; `none` models the Go `nil` return.
Faithful to the source: the `env` namespace is checked first, then a bound
module namespace of exactly that name, then — for the empty or `local`
namespace tag — the local namespace, then — for the empty or `up` tag — the
up namespace. -/
def evalCtx.ResolveVar (ec : evalCtx) (h : Heap) (nsTag name : String) : Option Var :=
  if nsTag = "env" then some (newEnvVariable name)
  else
    match Elvish.lookupL ec.ev.mod nsTag with
    | some m => Elvish.lookupL m name
    | none =>
      match (if nsTag = "" ∨ nsTag = "local" then Elvish.lookupL (h ec.localRef) name else none) with
      | some v => some v
      | none =>
        match (if nsTag = "" ∨ nsTag = "up" then Elvish.lookupL (h ec.upRef) name else none) with
        | some v => some v
        | none => none

/-- The sort of an `exitus` value. -/
inductive ExSort where
  | Ok
  | Failure
  | Tb
  | Return
  | Break
  | Continue
  deriving DecidableEq

/-- An `exitus` command result, with its sort and failure message. -/
structure exitus where
  sort : ExSort
  Failure : String
  deriving DecidableEq

/-- A value of the older-generation evaluator: strings, booleans, and
`exitus` results. -/
inductive OldValue where
  | str (s : String)
  | boolean (b : Bool)
  | ex (e : exitus)
  deriving DecidableEq

/-- `HasFailure` reports whether a list of values contains a non-`Ok`
`exitus`; non-`exitus` values are silently ignored. -/
def HasFailure : List OldValue → Bool
  | [] => false
  | OldValue.ex e :: vs => if e.sort = ExSort.Ok then HasFailure vs else true
  | _ :: vs => HasFailure vs

end ElvishOld

/-- Claim C1: in the `while` form a `Continue` cause is swallowed and the loop
restarts, any other non-`Break` cause propagates; but contrary to the claim, a
`Break` cause does not exit the loop — the Go code runs `continue`, so the
condition is re-evaluated and, while it stays true, the body is executed
again. On the failing input (conditions true, true, false; first body call
raises `Break`, second returns normally) the code calls the body twice and
only finishes when the condition turns false, whereas the claimed behaviour
(embodied by `whileSpecLoop`) calls it once. The swallowing of `Continue` and
the propagation of other causes are as claimed. -/
theorem C1_while_break_bug :
    Elvish.whileGo [true, true, false] [some Elvish.Cause.Break, none] =
      (Elvish.WhileRes.finished, 2) ∧
    Elvish.whileSpecLoop [true, true, false] [some Elvish.Cause.Break, none] =
      (Elvish.WhileRes.finished, 1) ∧
    Elvish.whileGo [true, true, false] [some Elvish.Cause.Continue, none] =
      (Elvish.WhileRes.finished, 2) ∧
    Elvish.whileGo [true, true, false] [some (Elvish.Cause.err "boom"), none] =
      (Elvish.WhileRes.thrown (Elvish.Cause.err "boom"), 1) := by
  refine ⟨rfl, rfl, rfl, rfl⟩

/-- Claim C2, counterexample: the claim fails on the code. `evalCtx.copy`
copies the `local` namespace reference shallowly, so deleting a variable
through the fork `G = F.copy "sub"` empties the parent `F`'s local namespace
as well: before the deletion `F`'s local namespace binds `x`, afterwards it
does not. -/
theorem C2_counterexample :
    (let F : ElvishOld.evalCtx :=
      ⟨⟨9, [], []⟩, "n", "t", "top", 0, 1, []⟩
     let h0 : ElvishOld.Heap :=
      fun r => if r = 0 then [("x", ElvishOld.Var.ptr 1)] else []
     ElvishOld.localOf h0 F = [("x", ElvishOld.Var.ptr 1)] ∧
       ElvishOld.localOf (ElvishOld.delLocal h0 (F.copy "sub") "x") F = []) := by
  exact ⟨rfl, rfl⟩

/-- Claim C2, amended: a fork (copy) of a frame shares the parent's local
(and up) namespace reference — only the ports are copied deeply, with the
close flags cleared. Hence adding a variable to or deleting a variable from
the fork's local namespace performs exactly the same mutation on the parent's
local namespace. -/
theorem C2_amended (h : ElvishOld.Heap) (ec : ElvishOld.evalCtx)
    (c k : String) (v : ElvishOld.Var) :
    (ec.copy c).localRef = ec.localRef ∧
    (ec.copy c).upRef = ec.upRef ∧
    ElvishOld.localOf (ElvishOld.addLocal h (ec.copy c) k v) ec =
      ElvishOld.nsSet (ElvishOld.localOf h ec) k v ∧
    ElvishOld.localOf (ElvishOld.delLocal h (ec.copy c) k) ec =
      ElvishOld.nsDel (ElvishOld.localOf h ec) k ∧
    (ec.copy c).ports = ec.ports.map (fun p => ⟨p.f, p.ch, false, false⟩) := by
  refine ⟨rfl, rfl, ?_, ?_, rfl⟩
  · simp [ElvishOld.localOf, ElvishOld.addLocal, ElvishOld.heapUpdate,
      ElvishOld.evalCtx.copy]
  · simp [ElvishOld.localOf, ElvishOld.delLocal, ElvishOld.heapUpdate,
      ElvishOld.evalCtx.copy]

/-- Claim C7, counterexample: the claim fails on the code. In a context whose
local and up namespaces are empty but whose bound module `m` exports `x`,
resolving the unprefixed name `x` returns `nil`: `ResolveVar` never searches
bound modules (nor builtins) for unprefixed names, while the claim says the
search reaches them and fails only when all four places fail. -/
theorem C7_counterexample :
    (let ec : ElvishOld.evalCtx :=
      ⟨⟨9, [("m", [("x", ElvishOld.Var.ptr 7)])], []⟩, "n", "t", "top", 0, 1, []⟩
     let h0 : ElvishOld.Heap := fun _ => []
     ec.ResolveVar h0 "" "x" = none ∧
       Elvish.lookupL ec.ev.mod "m" = some [("x", ElvishOld.Var.ptr 7)] ∧
       Elvish.lookupL (h0 ec.localRef) "x" = none ∧
       Elvish.lookupL (h0 ec.upRef) "x" = none) := by
  exact ⟨rfl, rfl, rfl, rfl⟩

/-- Claim C7, amended: an unprefixed (namespace-less) variable name is
resolved by searching the frame's local namespace first and then the up
namespace, returning the first match and failing (returning nil) when both
fail; bound module namespaces are consulted only under an explicit namespace
prefix and builtins are never consulted — provided no module is bound under
the empty name. -/
theorem C7_amended (h : ElvishOld.Heap) (ec : ElvishOld.evalCtx) (name : String)
    (hmod : Elvish.lookupL ec.ev.mod "" = none) :
    ec.ResolveVar h "" name =
      match Elvish.lookupL (h ec.localRef) name with
      | some v => some v
      | none => Elvish.lookupL (h ec.upRef) name := by
  unfold ElvishOld.evalCtx.ResolveVar
  rw [if_neg (by decide)]
  rw [hmod]
  simp only [if_pos (Or.inl rfl)]
  rcases hl : Elvish.lookupL (h ec.localRef) name with _ | v
  · rcases hu : Elvish.lookupL (h ec.upRef) name with _ | w <;> simp
  · simp

/-- Witness for `C7_amended` at a concrete context: with no module bound under
the empty name, local binding of `x` wins over the up namespace. -/
theorem C7_amended_witness :
    (let ec : ElvishOld.evalCtx :=
      ⟨⟨9, [], []⟩, "n", "t", "top", 0, 1, []⟩
     let h0 : ElvishOld.Heap :=
      fun r => if r = 0 then [("x", ElvishOld.Var.ptr 3)]
        else [("x", ElvishOld.Var.ptr 4)]
     ec.ResolveVar h0 "" "x" = some (ElvishOld.Var.ptr 3)) := by
  have := C7_amended
    (fun r => if r = 0 then [("x", ElvishOld.Var.ptr 3)]
      else [("x", ElvishOld.Var.ptr 4)])
    ⟨⟨9, [], []⟩, "n", "t", "top", 0, 1, []⟩ "x" rfl
  simpa using this

/-- Claim C8: `Fork` yields a port with the same `File` and `Chan` and both
ownership flags false; `Close` emits a close of the file exactly when the
file-ownership flag is set and a close of the channel exactly when the
channel-ownership flag is set; closing a nil port is a no-op; `ClosePorts`
closes a port list deterministically left to right (it concatenates the
per-port effects in order); and a forked port performs no closes at all. -/
theorem C8_port_ownership :
    (∀ p : Elvish.Port, (p.Fork).File = p.File ∧ (p.Fork).Chan = p.Chan ∧
      (p.Fork).CloseFile = false ∧ (p.Fork).CloseChan = false) ∧
    (∀ p : Elvish.Port,
      (Elvish.CloseEffect.closeFile p.File ∈ Elvish.PortClose (some p) ↔
        p.CloseFile = true) ∧
      (Elvish.CloseEffect.closeChan p.Chan ∈ Elvish.PortClose (some p) ↔
        p.CloseChan = true)) ∧
    Elvish.PortClose none = [] ∧
    (∀ ps qs : List (Option Elvish.Port),
      Elvish.ClosePorts (ps ++ qs) = Elvish.ClosePorts ps ++ Elvish.ClosePorts qs) ∧
    (∀ p : Elvish.Port, Elvish.PortClose (some p.Fork) = []) := by
  refine ⟨fun p => ⟨rfl, rfl, rfl, rfl⟩, fun p => ?_, rfl, fun ps qs => ?_, fun p => rfl⟩
  · obtain ⟨fl, c, cf, cc⟩ := p
    cases cf <;> cases cc <;> simp [Elvish.PortClose]
  · induction ps with
    | nil => simp [Elvish.ClosePorts]
    | cons p ps ih => simp [Elvish.ClosePorts, ih]

/-- Claim C10: `HasFailure vs` is true exactly when `vs` contains an `exitus`
value whose sort is not `Ok`; non-`exitus` values are ignored, so in
particular a list without `exitus` values always yields false. -/
theorem C10_hasFailure (vs : List ElvishOld.OldValue) :
    ElvishOld.HasFailure vs = true ↔
      ∃ e, ElvishOld.OldValue.ex e ∈ vs ∧ e.sort ≠ ElvishOld.ExSort.Ok := by
  induction vs with
  | nil => simp [ElvishOld.HasFailure]
  | cons v vs ih =>
    cases v with
    | str s => simp [ElvishOld.HasFailure, ih]
    | boolean b => simp [ElvishOld.HasFailure, ih]
    | ex e =>
      by_cases h : e.sort = ElvishOld.ExSort.Ok
      · simp only [ElvishOld.HasFailure, if_pos h, ih]
        constructor
        · rintro ⟨e', he', hs⟩
          exact ⟨e', List.mem_cons_of_mem _ he', hs⟩
        · rintro ⟨e', he', hs⟩
          rcases List.mem_cons.mp he' with heq | hmem
          · cases heq
            exact absurd h hs
          · exact ⟨e', hmem, hs⟩
      · simp only [ElvishOld.HasFailure, if_neg h, true_iff]
        exact ⟨e, List.mem_cons_self _ _, h⟩

/-- Helper: `scanVals` stops at the first value whose truthiness equals
`stopAt`, otherwise carries the last value. -/
theorem scanVals_eq (stopAt : Bool) (last : Elvish.Value) (vs : List Elvish.Value) :
    Elvish.scanVals stopAt last vs =
      (match Elvish.firstStop stopAt vs with
       | some v => Sum.inl v
       | none => Sum.inr (Elvish.lastOr last vs)) := by
  induction vs generalizing last with
  | nil => rfl
  | cons v vs ih =>
    by_cases h : Elvish.ToBool v = stopAt
    · simp [Elvish.scanVals, Elvish.firstStop, h]
    · simp [Elvish.scanVals, Elvish.firstStop, h, ih, Elvish.lastOr]

/-- Helper: the first stopping value of an appended list. -/
theorem firstStop_append (stopAt : Bool) (xs ys : List Elvish.Value) :
    Elvish.firstStop stopAt (xs ++ ys) =
      (match Elvish.firstStop stopAt xs with
       | some v => some v
       | none => Elvish.firstStop stopAt ys) := by
  induction xs with
  | nil => rfl
  | cons v xs ih =>
    by_cases h : Elvish.ToBool v = stopAt
    · simp [Elvish.firstStop, h]
    · simp [Elvish.firstStop, h, ih]

/-- Helper: the last value of an appended list. -/
theorem lastOr_append (d : Elvish.Value) (xs ys : List Elvish.Value) :
    Elvish.lastOr d (xs ++ ys) = Elvish.lastOr (Elvish.lastOr d xs) ys := by
  induction xs generalizing d with
  | nil => rfl
  | cons v xs ih => simp [Elvish.lastOr, ih]

/-- Helper: characterization of `andOrLoop` when no argument throws. -/
theorem andOrLoop_ok (stopAt : Bool) (vss : List (List Elvish.Value))
    (last : Elvish.Value) :
    Elvish.andOrLoop stopAt last (vss.map Except.ok) =
      Except.ok
        (match Elvish.firstStop stopAt vss.flatten with
         | some v => v
         | none => Elvish.lastOr last vss.flatten) := by
  induction vss generalizing last with
  | nil => rfl
  | cons vs vss ih =>
    simp only [List.map_cons, Elvish.andOrLoop, List.flatten]
    rw [scanVals_eq]
    cases hf : Elvish.firstStop stopAt vs with
    | some v => simp [List.flatten, firstStop_append, hf]
    | none => simp [List.flatten, firstStop_append, hf, ih, lastOr_append]

/-- Claim C5: the and form examines the values produced by the argument
compounds left to right and stops at the first false-ish value, which is
output; if no false-ish value occurs the last value produced is output; an
empty argument list outputs Bool(true). Symmetrically or outputs the first
true-ish value, else the last value, and Bool(false) for an empty list.
Arguments after the stopping value are never evaluated, so
`and false (fail oops)` (and symmetrically `or true (fail oops)`) completes
without an exception. -/
theorem C5_and_or :
    (∀ vss : List (List Elvish.Value),
      Elvish.compileAndOr true false (vss.map Except.ok) =
        Except.ok
          (match Elvish.firstStop false vss.flatten with
           | some v => v
           | none => Elvish.lastOr (Elvish.Value.bool true) vss.flatten)) ∧
    (∀ vss : List (List Elvish.Value),
      Elvish.compileAndOr false true (vss.map Except.ok) =
        Except.ok
          (match Elvish.firstStop true vss.flatten with
           | some v => v
           | none => Elvish.lastOr (Elvish.Value.bool false) vss.flatten)) ∧
    Elvish.compileAnd [] = Except.ok (Elvish.Value.bool true) ∧
    Elvish.compileOr [] = Except.ok (Elvish.Value.bool false) ∧
    Elvish.compileAnd
        [Except.ok [Elvish.Value.bool false], Except.error (Elvish.Err.user "oops")] =
      Except.ok (Elvish.Value.bool false) ∧
    Elvish.compileOr
        [Except.ok [Elvish.Value.bool true], Except.error (Elvish.Err.user "oops")] =
      Except.ok (Elvish.Value.bool true) := by
  refine ⟨fun vss => andOrLoop_ok false vss _, fun vss => andOrLoop_ok true vss _,
    rfl, rfl, rfl, rfl⟩

/-- Claim C4, counterexample: the claim fails on the code. When the body
raises and the except clause has an exception variable whose Set fails (for
example a pwd-like variable rejecting the non-string Exception value with the
path-must-be-string error), `maybeThrow` throws that error immediately: the
try form has a finally clause, yet the finally body is not executed. -/
theorem C4_counterexample :
    (let c : Elvish.TryCfg :=
      ⟨true, true, false, true, some (Elvish.Err.user "boom"),
        some Elvish.Err.pathMustBeString, none, none, none⟩
     c.hasFinally = true ∧
     Elvish.runTry c =
       ⟨false, false, false, some Elvish.Err.pathMustBeString⟩) :=
  ⟨rfl, rfl⟩

/-- Claim C4, amended: in a try form with a finally clause, the finally body
is executed whether the body raised an exception, whether an except clause
caught it, and whether the except/else clause itself raised — except on the
one path where assigning the caught exception to the except variable fails,
in which case that error is thrown immediately and the finally body does not
run; in all other cases any exception remaining after except/else (the
original uncaught one, or one thrown by except/else) is re-thrown after the
finally body runs, when the finally body itself completes normally. -/
theorem C4_try_finally_amended (c : Elvish.TryCfg) (hf : c.hasFinally = true) :
    ((c.bodyErr = none ∨ c.hasExcept = false ∨ c.hasExceptVar = false ∨
        c.setErr = none) →
      (Elvish.runTry c).finallyRan = true ∧
      (c.finallyErr = none → (Elvish.runTry c).thrown = Elvish.pendingErr c)) ∧
    (∀ e se, c.bodyErr = some e → c.hasExcept = true → c.hasExceptVar = true →
      c.setErr = some se →
      Elvish.runTry c = ⟨false, false, false, some se⟩) := by
  constructor
  · intro hcase
    unfold Elvish.runTry Elvish.pendingErr
    rcases hb : c.bodyErr with _ | e <;>
      rcases hx : c.hasExcept with _ | _ <;>
        rcases hv : c.hasExceptVar with _ | _ <;>
          rcases he : c.hasElse with _ | _ <;>
            rcases hfe : c.finallyErr with _ | fe <;>
              rcases hs : c.setErr with _ | se <;>
                simp_all
  · intro e se hb hx hv hs
    unfold Elvish.runTry
    simp [hb, hx, hv, hs]

/-- Witness for `C4_try_finally_amended`: when the body raises and the except
clause itself raises (the exception-variable assignment succeeding), finally
runs and the except clause's exception is re-thrown; when the
exception-variable assignment fails, its error is thrown and finally is
skipped. -/
theorem C4_try_finally_amended_witness :
    (Elvish.runTry
      ⟨true, true, false, true, some (Elvish.Err.user "boom"), none,
        some (Elvish.Err.user "again"), none, none⟩).finallyRan = true ∧
    (Elvish.runTry
      ⟨true, true, false, true, some (Elvish.Err.user "boom"), none,
        some (Elvish.Err.user "again"), none, none⟩).thrown =
      some (Elvish.Err.user "again") ∧
    Elvish.runTry
      ⟨true, true, false, true, some (Elvish.Err.user "boom"),
        some Elvish.Err.pathMustBeString, none, none, none⟩ =
      ⟨false, false, false, some Elvish.Err.pathMustBeString⟩ := by
  have h := (C4_try_finally_amended
    ⟨true, true, false, true, some (Elvish.Err.user "boom"), none,
      some (Elvish.Err.user "again"), none, none⟩ rfl).1
    (Or.inr (Or.inr (Or.inr rfl)))
  have h2 := (C4_try_finally_amended
    ⟨true, true, false, true, some (Elvish.Err.user "boom"),
      some Elvish.Err.pathMustBeString, none, none, none⟩ rfl).2
    (Elvish.Err.user "boom") Elvish.Err.pathMustBeString rfl rfl rfl rfl
  exact ⟨h.1, h.2 rfl, h2⟩

/-- Claim C9: every Set of the working-directory variable with a value that
is not a string returns the path-must-be-string error and leaves the world
(in particular the working directory) unchanged; every Get returns the
current working directory as reported by the operating system. -/
theorem C9_pwd (v : Elvish.Value) (w : Elvish.World)
    (hv : Elvish.isStr v = false) :
    Elvish.PwdVariableSet v w = (some Elvish.Err.pathMustBeString, w) ∧
    Elvish.PwdVariableGet w = Elvish.Value.str w.cwd := by
  refine ⟨?_, rfl⟩
  cases v <;> simp_all [Elvish.isStr, Elvish.PwdVariableSet]

/-- Witness for `C9_pwd`: setting pwd to a boolean fails with the
path-must-be-string error and the working directory stays put. -/
theorem C9_pwd_witness :
    Elvish.PwdVariableSet (Elvish.Value.bool true) ⟨"/home", []⟩ =
      (some Elvish.Err.pathMustBeString, ⟨"/home", []⟩) ∧
    Elvish.PwdVariableGet ⟨"/home", []⟩ = Elvish.Value.str "/home" :=
  C9_pwd (Elvish.Value.bool true) ⟨"/home", []⟩ rfl

/-- Helper: looking up a key in a list from which that key was filtered out
yields nothing. -/
theorem lookupL_filter_ne {α : Type} (l : List (String × α)) (k : String) :
    Elvish.lookupL (l.filter (fun p => p.1 != k)) k = none := by
  induction l with
  | nil => rfl
  | cons p l ih =>
    rw [List.filter_cons]
    by_cases h : p.1 = k
    · simp [h, ih]
    · simp [h, Elvish.lookupL, ih]

/-- Helper: either `loadModule` returns without executing the module body, or
it behaves as the body-execution tail: fresh namespace inserted, body
evaluated, entry removed again on a body error. -/
theorem loadModule_body_cases (env : Elvish.ModEnv) (cache : Elvish.Cache)
    (g : Elvish.Ns) (name : String) :
    (Elvish.loadModule env cache g name).bodyExecutedWith = none ∨
    Elvish.loadModule env cache g name =
      (match env.evalBody name with
       | some e =>
           ⟨Except.error e, ((name, g) :: cache).filter (fun p => p.1 != name),
             some ((name, g) :: cache)⟩
       | none =>
           ⟨Except.ok g, (name, g) :: cache, some ((name, g) :: cache)⟩) := by
  unfold Elvish.loadModule
  split
  · exact Or.inl rfl
  · split
    · exact Or.inl rfl
    · split
      · exact Or.inl rfl
      · split
        · exact Or.inl rfl
        · split
          · exact Or.inl rfl
          · exact Or.inr rfl

/-- Claim C3: when the resolved path is already in the module cache,
`loadModule` returns the cached namespace, leaves the cache unchanged and
does not execute the module body; whenever the module body is executed, the
cache it executes under already contains the fresh namespace (inserted in
front of the old cache); and when the body raises an error, the error is
re-thrown and the final cache has no entry for that path. -/
theorem C3_loadModule (env : Elvish.ModEnv) (cache : Elvish.Cache)
    (g : Elvish.Ns) (name : String) :
    (∀ cached, Elvish.lookupL cache name = some cached →
      Elvish.loadModule env cache g name = ⟨Except.ok cached, cache, none⟩) ∧
    (∀ c, (Elvish.loadModule env cache g name).bodyExecutedWith = some c →
      c = (name, g) :: cache ∧ Elvish.lookupL c name = some g) ∧
    (∀ e, env.evalBody name = some e →
      (Elvish.loadModule env cache g name).bodyExecutedWith ≠ none →
      (Elvish.loadModule env cache g name).res = Except.error e ∧
        Elvish.lookupL (Elvish.loadModule env cache g name).cache name = none) := by
  refine ⟨?_, ?_, ?_⟩
  · intro cached hc
    simp [Elvish.loadModule, hc]
  · intro c hc
    rcases loadModule_body_cases env cache g name with hnone | heq
    · rw [hnone] at hc; cases hc
    · rcases hev : env.evalBody name with _ | e <;>
      · rw [hev] at heq
        rw [heq] at hc
        simp only [Option.some.injEq] at hc
        subst hc
        exact ⟨rfl, by simp [Elvish.lookupL]⟩
  · intro e he hbody
    rcases loadModule_body_cases env cache g name with hnone | heq
    · exact absurd hnone hbody
    · rw [he] at heq
      rw [heq]
      exact ⟨rfl, lookupL_filter_ne _ _⟩

/-- Witness for `C3_loadModule`: a cache hit returns the cached namespace
without executing the body; on a miss with a failing body, the error is
re-thrown and the cache ends without the entry. -/
theorem C3_loadModule_witness :
    (let envW : Elvish.ModEnv :=
      ⟨"/lib", fun _ => true, fun _ => Except.ok "code", [],
        fun _ _ => none, fun _ _ => none, fun _ => some (Elvish.Err.user "bodyfail")⟩
     Elvish.loadModule envW [("m", 3)] 7 "m" = ⟨Except.ok 3, [("m", 3)], none⟩ ∧
     (Elvish.loadModule envW [] 7 "m").res = Except.error (Elvish.Err.user "bodyfail") ∧
     Elvish.lookupL (Elvish.loadModule envW [] 7 "m").cache "m" = none) := by
  refine ⟨(C3_loadModule _ [("m", 3)] 7 "m").1 3 rfl, ?_, ?_⟩
  · exact ((C3_loadModule _ [] 7 "m").2.2 (Elvish.Err.user "bodyfail") rfl
      (by decide)).1
  · exact ((C3_loadModule _ [] 7 "m").2.2 (Elvish.Err.user "bodyfail") rfl
      (by decide)).2

/-- Claim C6: a module path beginning with `./` or `../` used from a frame
whose source kind is not module throws the relative-use error before any
module is loaded; from a module source, the path is resolved relative to the
importing module's directory (its cleaned directory-prefixed form is what
reaches `loadModule`), and when that cleaned path still begins with `../` the
outside-library error is thrown before any module is loaded. -/
theorem C6_use_relative (env : Elvish.ModEnv) (cache : Elvish.Cache)
    (g : Elvish.Ns) (sm : Elvish.SrcMeta) (modpath : String)
    (hrel : (Elvish.hasPfx modpath "./" || Elvish.hasPfx modpath "../") = true) :
    (sm.typ ≠ Elvish.SrcKind.SrcModule →
      Elvish.useRun env cache g sm modpath =
        ⟨Except.error Elvish.Err.relativeUseNotFromMod, cache, false⟩) ∧
    (sm.typ = Elvish.SrcKind.SrcModule →
      (Elvish.hasPfx (Elvish.cleanPath (Elvish.dirPath sm.name ++ "/" ++ modpath)) "../"
          = true →
        Elvish.useRun env cache g sm modpath =
          ⟨Except.error Elvish.Err.relativeUseGoesOutsideLib, cache, false⟩) ∧
      (Elvish.hasPfx (Elvish.cleanPath (Elvish.dirPath sm.name ++ "/" ++ modpath)) "../"
          = false →
        Elvish.useRun env cache g sm modpath =
          ⟨(Elvish.loadModule env cache g
              (Elvish.cleanPath (Elvish.dirPath sm.name ++ "/" ++ modpath))).res,
            (Elvish.loadModule env cache g
              (Elvish.cleanPath (Elvish.dirPath sm.name ++ "/" ++ modpath))).cache,
            true⟩)) := by
  refine ⟨fun hty => ?_, fun hty => ⟨fun hesc => ?_, fun hok => ?_⟩⟩
  · simp [Elvish.useRun, Elvish.useResolve, hrel, hty]
  · simp [Elvish.useRun, Elvish.useResolve, hrel, hty, hesc]
  · simp [Elvish.useRun, Elvish.useResolve, hrel, hty, hok]

/-- Witness for `C6_use_relative`: `use ./m` from a top-level source throws
the relative-use error; `use ../x` from module `a` escapes the library
directory and throws; `use ../c` from module `a/b` resolves to `c` and
proceeds to `loadModule` (which here fails only for lack of a lib dir). -/
theorem C6_use_relative_witness :
    (let envW : Elvish.ModEnv :=
      ⟨"", fun _ => false, fun p => Except.error (Elvish.Err.readFail p), [],
        fun _ _ => none, fun _ _ => none, fun _ => none⟩
     Elvish.useRun envW [] 0 ⟨Elvish.SrcKind.SrcTop, "x"⟩ "./m" =
        ⟨Except.error Elvish.Err.relativeUseNotFromMod, [], false⟩ ∧
     Elvish.useRun envW [] 0 ⟨Elvish.SrcKind.SrcModule, "a"⟩ "../x" =
        ⟨Except.error Elvish.Err.relativeUseGoesOutsideLib, [], false⟩ ∧
     Elvish.useRun envW [] 0 ⟨Elvish.SrcKind.SrcModule, "a/b"⟩ "../c" =
        ⟨Except.error Elvish.Err.errNoLibDir, [], true⟩) := by
  refine ⟨?_, ?_, ?_⟩
  · exact (C6_use_relative _ [] 0 ⟨Elvish.SrcKind.SrcTop, "x"⟩ "./m" (by decide)).1
      (by decide)
  · exact ((C6_use_relative _ [] 0 ⟨Elvish.SrcKind.SrcModule, "a"⟩ "../x"
      (by decide)).2 rfl).1 (by decide)
  · exact ((C6_use_relative _ [] 0 ⟨Elvish.SrcKind.SrcModule, "a/b"⟩ "../c"
      (by decide)).2 rfl).2 (by decide)
